import Mathlib

/-!
Verification of `migrator.py`: a shallow embedding of the migration
pipeline (paginated fetch, connection reconciliation, per-flow drivers)
together with proofs of the specification claims.

Python JSON values are modelled by `JVal`; Python dicts by association
lists with insertion-order semantics (`assocSet` updates an existing key
in place, otherwise appends, exactly like assignment into a `dict`).
Network interaction is modelled by oracles: a listing oracle maps the
query-parameter dict to an optional page, detail/create oracles map the
request payload to an optional decoded JSON response.  `none` models the
cases where `send_request` returns `None` (a transport error or an
undecodable body, in which case `send_request` has printed an error
notice) and, for listing calls, also a decoded-but-falsy body, since the
pagination loop treats both identically (`if not data: break`).
Decoded responses that are truthy non-dicts would crash the Python at
`data.get`; such servers are outside the model.
-/

namespace Migrator

/-- JSON-like values as decoded by `response.json()` / the config loaders. -/
inductive JVal where
  | null
  | bool (b : Bool)
  | num (n : Int)
  | str (s : String)
  | arr (xs : List JVal)
  | obj (fields : List (String × JVal))

/-- The fields of one decoded JSON object (a Python `dict`). -/
abbrev JObj := List (String × JVal)

/-- First-match lookup in an association list (Python `d[k]` / `k in d`
for dicts, whose keys are unique by construction). -/
def alookup {α : Type} : List (String × α) → String → Option α
  | [], _ => none
  | (k, v) :: rest, key => if k = key then some v else alookup rest key

/-- `d[k] = v` on a Python dict: update an existing key in place,
otherwise append a fresh entry at the end. -/
def assocSet {α : Type} : List (String × α) → String → α → List (String × α)
  | [], key, v => [(key, v)]
  | (k, w) :: rest, key, v =>
    if k = key then (k, v) :: rest else (k, w) :: assocSet rest key v

/-- Python `d.update(u)`: apply the updates of `u` in order. -/
def dictUpdate {α : Type} (d u : List (String × α)) : List (String × α) :=
  u.foldl (fun acc kv => assocSet acc kv.1 kv.2) d

/-- Python `d.get(k, default)` on an object. -/
def dgetD (d : JObj) (k : String) (default : JVal) : JVal :=
  (alookup d k).getD default

/-- Python `v[k]` with `v` an arbitrary JSON value: defined only when
`v` is an object holding key `k`; `none` models the KeyError/TypeError
that aborts the run. -/
def JVal.item : JVal → String → Option JVal
  | .obj fields, k => alookup fields k
  | _, _ => none

/-- Python truthiness of a decoded JSON value. -/
def JVal.truthy : JVal → Bool
  | .null => false
  | .bool b => b
  | .num n => n != 0
  | .str s => !s.isEmpty
  | .arr xs => !xs.isEmpty
  | .obj fields => !fields.isEmpty

/-- Truthiness of a `send_request` result (`None` is falsy). -/
def respTruthy : Option JVal → Bool
  | none => false
  | some v => v.truthy

/-!
## Paginator (`fetch_paginated_data`, migrator.py lines 56-78)

A *usable* listing response is modelled as a `Page`: `content` is
`data.get("content", [])` and `last` is `data.get("last", False)`, so a
truthy dict response without those keys is the page with empty content
and `last = false`.  A listing oracle maps the query-parameter dict that
the loop sends to `Option Page`; `none` covers `send_request` failures
and falsy bodies, both of which hit `if not data: break`.

The Python `while True` loop is given explicit fuel; every claim about
the paginator carries a hypothesis that the fuel exceeds the number of
pages actually fetched, so the fuel-exhaustion branch is never observed.
The function also returns the list of query-parameter dicts it sent, in
order, so that claims about the requested page indices can be stated.
-/

structure Page where
  content : List JVal
  last : Bool

/-- `current_params` of one loop iteration: the two standard keys,
`update`d with the caller-supplied extra params when present. -/
def currentParams (params : Option JObj) (size : JVal) (page : Nat) : JObj :=
  dictUpdate [("page", JVal.num (page - 1 : Nat)), ("size", size)] (params.getD [])

/-- The loop body of `fetch_paginated_data`.  `page` starts at 1 and the
request carries `page - 1`; `size` was computed once before the loop.
Returns (query dicts sent, accumulated content). -/
def fetchLoop (listing : JObj → Option Page) (params : Option JObj) (size : JVal) :
    Nat → Nat → List JObj × List JVal
  | 0, _ => ([], [])
  | fuel + 1, page =>
    match listing (currentParams params size page) with
    | none => ([currentParams params size page], [])
    | some data =>
      if data.last then ([currentParams params size page], data.content)
      else
        (currentParams params size page :: (fetchLoop listing params size fuel (page + 1)).1,
         data.content ++ (fetchLoop listing params size fuel (page + 1)).2)

/-- `fetch_paginated_data`: page counter starts at 1, page size defaults
to 100 (`params.get("size", 100) if params else 100`). -/
def fetch_paginated_data (listing : JObj → Option Page) (params : Option JObj) (fuel : Nat) :
    List JObj × List JVal :=
  let size := match params with
    | some p => dgetD p "size" (JVal.num 100)
    | none => JVal.num 100
  fetchLoop listing params size fuel 1

/-- A fully-decodable server: answers every request whose `page`
parameter is a non-negative integer with the page of that index. -/
def natServer (pages : Nat → Page) : JObj → Option Page := fun ps =>
  match alookup ps "page" with
  | some (.num i) => if 0 ≤ i then some (pages i.toNat) else none
  | _ => none

/-- A server that stops being usable from page index `k` on: requests
below `k` decode to the given pages, requests at `k` or beyond return no
usable data. -/
def truncServer (pages : Nat → Page) (k : Nat) : JObj → Option Page := fun ps =>
  match alookup ps "page" with
  | some (.num i) => if 0 ≤ i ∧ i < (k : Int) then some (pages i.toNat) else none
  | _ => none

/-- The query dict `fetch_paginated_data` sends for 0-based page index
`i` when called without extra params. -/
def pageRequest (i : Nat) : JObj := [("page", JVal.num i), ("size", JVal.num 100)]

theorem pageRequest_inj {a b : Nat} (h : pageRequest a = pageRequest b) : a = b := by
  simpa [pageRequest] using h

theorem natServer_pageRequest (pages : Nat → Page) (i : Nat) :
    natServer pages (pageRequest i) = some (pages i) := by
  simp [natServer, pageRequest, alookup]

theorem truncServer_pageRequest_lt (pages : Nat → Page) {k i : Nat} (h : i < k) :
    truncServer pages k (pageRequest i) = some (pages i) := by
  simp [truncServer, pageRequest, alookup]
  omega

theorem truncServer_pageRequest_ge (pages : Nat → Page) {k i : Nat} (h : k ≤ i) :
    truncServer pages k (pageRequest i) = none := by
  simp [truncServer, pageRequest, alookup]
  omega

/-- One iteration of the loop, no extra params: the query dict sent for
loop counter `start + 1` is `pageRequest start`. -/
theorem fetchLoop_eq (listing : JObj → Option Page) (fuel start : Nat) :
    fetchLoop listing none (JVal.num 100) (fuel + 1) (start + 1) =
      match listing (pageRequest start) with
      | none => ([pageRequest start], [])
      | some data =>
        if data.last then ([pageRequest start], data.content)
        else
          (pageRequest start :: (fetchLoop listing none (JVal.num 100) fuel (start + 2)).1,
           data.content ++ (fetchLoop listing none (JVal.num 100) fuel (start + 2)).2) := by
  have hc : currentParams none (JVal.num 100) (start + 1) = pageRequest start := by
    simp [currentParams, dictUpdate, pageRequest]
  rw [fetchLoop, hc]

theorem fetchLoop_none (listing : JObj → Option Page) (fuel start : Nat)
    (hfuel : 0 < fuel) (h : listing (pageRequest start) = none) :
    fetchLoop listing none (JVal.num 100) fuel (start + 1) = ([pageRequest start], []) := by
  obtain ⟨fuel, rfl⟩ : ∃ f, fuel = f + 1 := ⟨fuel - 1, by omega⟩
  rw [fetchLoop_eq, h]

theorem fetchLoop_last (listing : JObj → Option Page) (fuel start : Nat)
    {data : Page} (hfuel : 0 < fuel) (h : listing (pageRequest start) = some data)
    (hl : data.last = true) :
    fetchLoop listing none (JVal.num 100) fuel (start + 1) =
      ([pageRequest start], data.content) := by
  obtain ⟨fuel, rfl⟩ : ∃ f, fuel = f + 1 := ⟨fuel - 1, by omega⟩
  rw [fetchLoop_eq, h]
  simp [hl]

theorem fetchLoop_cont (listing : JObj → Option Page) {fuel : Nat} (start : Nat)
    {data : Page} (h : listing (pageRequest start) = some data) (hl : data.last = false) :
    fetchLoop listing none (JVal.num 100) (fuel + 1) (start + 1) =
      (pageRequest start :: (fetchLoop listing none (JVal.num 100) fuel (start + 2)).1,
       data.content ++ (fetchLoop listing none (JVal.num 100) fuel (start + 2)).2) := by
  rw [fetchLoop_eq, h]
  simp [hl]

/-- The loop always records the query dict of the page it is about to
request before looking at the response. -/
theorem fetchLoop_head (listing : JObj → Option Page) (fuel start : Nat)
    (hfuel : 0 < fuel) :
    ∃ tail, (fetchLoop listing none (JVal.num 100) fuel (start + 1)).1 =
      pageRequest start :: tail := by
  obtain ⟨fuel, rfl⟩ : ∃ f, fuel = f + 1 := ⟨fuel - 1, by omega⟩
  rw [fetchLoop_eq]
  rcases h : listing (pageRequest start) with _ | data
  · exact ⟨[], rfl⟩
  · by_cases hl : data.last <;> simp [hl]

/-- The query dicts the loop sends for `m` consecutive pages starting
at index `start`. -/
def reqsFrom : Nat → Nat → List JObj
  | _, 0 => []
  | start, m + 1 => pageRequest start :: reqsFrom (start + 1) m

/-- The concatenated content of `m` consecutive pages starting at
index `start`. -/
def contentFrom (pages : Nat → Page) : Nat → Nat → List JVal
  | _, 0 => []
  | start, m + 1 => (pages start).content ++ contentFrom pages (start + 1) m

theorem reqsFrom_eq (m : Nat) : ∀ start,
    reqsFrom start m = (List.range m).map (fun j => pageRequest (start + j)) := by
  induction m with
  | zero => intro start; rfl
  | succ m ih =>
    intro start
    rw [List.range_succ_eq_map, List.map_cons, List.map_map]
    show pageRequest start :: reqsFrom (start + 1) m = _
    rw [ih (start + 1)]
    congr 1
    apply List.map_congr_left
    intro j hj
    simp [Function.comp]
    congr 1
    omega

theorem contentFrom_eq (pages : Nat → Page) (m : Nat) : ∀ start,
    contentFrom pages start m =
      ((List.range m).map (fun j => (pages (start + j)).content)).flatten := by
  induction m with
  | zero => intro start; rfl
  | succ m ih =>
    intro start
    rw [List.range_succ_eq_map, List.map_cons, List.map_map, List.flatten_cons]
    show (pages start).content ++ contentFrom pages (start + 1) m = _
    rw [ih (start + 1)]
    congr 2
    apply List.map_congr_left
    intro j hj
    simp [Function.comp]
    congr 2
    omega

/-- Splitting the loop across `m` decodable non-last pages: the loop
requests pages `start, …, start + m - 1`, accumulates their content in
order, and continues from page `start + m` with `m` fewer units of fuel. -/
theorem fetchLoop_split (listing : JObj → Option Page) (pages : Nat → Page) (m : Nat) :
    ∀ start fuel, m ≤ fuel →
    (∀ j, j < m → listing (pageRequest (start + j)) = some (pages (start + j))) →
    (∀ j, j < m → (pages (start + j)).last = false) →
    fetchLoop listing none (JVal.num 100) fuel (start + 1) =
      (reqsFrom start m ++
        (fetchLoop listing none (JVal.num 100) (fuel - m) (start + m + 1)).1,
       contentFrom pages start m ++
        (fetchLoop listing none (JVal.num 100) (fuel - m) (start + m + 1)).2) := by
  induction m with
  | zero => intro start fuel _ _ _; simp [reqsFrom, contentFrom]
  | succ m ih =>
    intro start fuel hfuel hdec hlast
    obtain ⟨fuel, rfl⟩ : ∃ f, fuel = f + 1 := ⟨fuel - 1, by omega⟩
    rw [fetchLoop_cont listing start (by simpa using hdec 0 (by omega))
      (by simpa using hlast 0 (by omega))]
    have ih' := ih (start + 1) fuel (by omega)
      (fun j hj => by
        have := hdec (j + 1) (by omega)
        rwa [show start + (j + 1) = start + 1 + j by omega] at this)
      (fun j hj => by
        have := hlast (j + 1) (by omega)
        rwa [show start + (j + 1) = start + 1 + j by omega] at this)
    rw [show start + 1 + 1 = start + 2 by omega,
      show start + 1 + m + 1 = start + (m + 1) + 1 by omega] at ih'
    rw [ih']
    simp [reqsFrom, contentFrom, Nat.succ_sub_succ]

theorem reqsFrom_snoc (start m : Nat) :
    reqsFrom start (m + 1) = reqsFrom start m ++ [pageRequest (start + m)] := by
  rw [reqsFrom_eq, reqsFrom_eq, List.range_succ, List.map_append]
  rfl

theorem contentFrom_snoc (pages : Nat → Page) (start m : Nat) :
    contentFrom pages start (m + 1) =
      contentFrom pages start m ++ (pages (start + m)).content := by
  rw [contentFrom_eq, contentFrom_eq, List.range_succ, List.map_append,
    List.flatten_append]
  simp

theorem reqsFrom_zero (m : Nat) : reqsFrom 0 m = (List.range m).map pageRequest := by
  rw [reqsFrom_eq]
  simp

theorem contentFrom_zero (pages : Nat → Page) (m : Nat) :
    contentFrom pages 0 m = ((List.range m).map (fun i => (pages i).content)).flatten := by
  rw [contentFrom_eq]
  simp

/-- A full run against a fully-decodable server whose pages `0, …, m-1`
are not last and whose page `m` is last: requests pages `0, …, m` and
returns their concatenated content. -/
theorem fetchLoop_natServer_full (pages : Nat → Page) (m fuel : Nat)
    (hfuel : m < fuel)
    (hmid : ∀ j, j < m → (pages j).last = false)
    (hlast : (pages m).last = true) :
    fetchLoop (natServer pages) none (JVal.num 100) fuel 1 =
      (reqsFrom 0 (m + 1), contentFrom pages 0 (m + 1)) := by
  have hsplit := fetchLoop_split (natServer pages) pages m 0 fuel (by omega)
    (fun j _ => natServer_pageRequest pages (0 + j))
    (fun j hj => by simpa using hmid j hj)
  have hstop := fetchLoop_last (natServer pages) (fuel - m) m
    (by omega) (natServer_pageRequest pages m) hlast
  simp only [Nat.zero_add] at hsplit
  rw [hsplit, hstop, reqsFrom_snoc, contentFrom_snoc]
  simp

/-- C1: the paginator concatenates the `content` of pages `0, …, n-1`
in order, requesting 0-based page indices `0, 1, …, n-1`, when pages
before the last report `last = false` and page `n-1` reports
`last = true`. -/
theorem fetch_paginated_data_concat (pages : Nat → Page) (n fuel : Nat)
    (hn : 0 < n) (hfuel : n ≤ fuel)
    (hmid : ∀ i, i + 1 < n → (pages i).last = false)
    (hlast : (pages (n - 1)).last = true) :
    fetch_paginated_data (natServer pages) none fuel =
      ((List.range n).map pageRequest,
       ((List.range n).map (fun i => (pages i).content)).flatten) := by
  obtain ⟨m, rfl⟩ : ∃ m, n = m + 1 := ⟨n - 1, by omega⟩
  have hfull := fetchLoop_natServer_full pages m fuel (by omega)
    (fun j hj => hmid j (by omega)) (by simpa using hlast)
  show fetchLoop (natServer pages) none (JVal.num 100) fuel 1 = _
  rw [hfull, reqsFrom_zero, contentFrom_zero]

/-- C6: when the server stops returning usable data at page index `k`
(all earlier pages decodable and not last), the paginator still sends
the request for page `k` and returns exactly the content of pages
`0, …, k-1`, as a normal value. -/
theorem fetch_paginated_data_partial (pages : Nat → Page) (k fuel : Nat)
    (hfuel : k < fuel)
    (hmid : ∀ i, i < k → (pages i).last = false) :
    fetch_paginated_data (truncServer pages k) none fuel =
      ((List.range (k + 1)).map pageRequest,
       ((List.range k).map (fun i => (pages i).content)).flatten) := by
  have hsplit := fetchLoop_split (truncServer pages k) pages k 0 fuel (by omega)
    (fun j hj => truncServer_pageRequest_lt pages (by omega))
    (fun j hj => by simpa using hmid j hj)
  have hstop := fetchLoop_none (truncServer pages k) (fuel - k) k
    (by omega) (truncServer_pageRequest_ge pages (by omega))
  show fetchLoop (truncServer pages k) none (JVal.num 100) fuel 1 = _
  simp only [Nat.zero_add] at hsplit
  rw [hsplit, hstop]
  rw [show (List.range (k + 1)).map pageRequest = reqsFrom 0 (k + 1) from
    (reqsFrom_zero (k + 1)).symm, reqsFrom_snoc, reqsFrom_zero, contentFrom_zero]
  simp

/-- C7: reaching page `i` (all earlier pages decodable and not last,
against a fully-decodable server), the paginator requests page `i + 1`
if and only if page `i` reports `last = false`; the content of page `i`
(empty or not) plays no role. -/
theorem page_boundary_iff_last (pages : Nat → Page) (i fuel : Nat)
    (hfuel : i + 2 ≤ fuel)
    (hmid : ∀ j, j < i → (pages j).last = false) :
    pageRequest (i + 1) ∈ (fetch_paginated_data (natServer pages) none fuel).1 ↔
      (pages i).last = false := by
  show pageRequest (i + 1) ∈ (fetchLoop (natServer pages) none (JVal.num 100) fuel 1).1 ↔ _
  constructor
  · intro hmem
    by_contra hne
    have hlast : (pages i).last = true := by
      cases h : (pages i).last
      · exact absurd h hne
      · rfl
    rw [fetchLoop_natServer_full pages i fuel (by omega) hmid hlast] at hmem
    rw [reqsFrom_zero] at hmem
    simp only [List.mem_map, List.mem_range] at hmem
    obtain ⟨j, hj, hjeq⟩ := hmem
    have := pageRequest_inj hjeq
    omega
  · intro hlast
    have hsplit := fetchLoop_split (natServer pages) pages (i + 1) 0 fuel (by omega)
      (fun j _ => natServer_pageRequest pages (0 + j))
      (fun j hj => by
        rcases Nat.lt_succ_iff_lt_or_eq.mp hj with h | h
        · simpa using hmid j h
        · simpa [h] using hlast)
    simp only [Nat.zero_add] at hsplit
    rw [hsplit]
    obtain ⟨tail, htail⟩ := fetchLoop_head (natServer pages)
      (fuel - (i + 1)) (i + 1) (by omega)
    rw [htail]
    simp

/-- A two-page demo server: page 0 holds "A" and is not last, page 1
holds "B" and is last. -/
def demoPages : Nat → Page := fun i =>
  if i = 0 then ⟨[JVal.str "A"], false⟩ else ⟨[JVal.str "B"], true⟩

/-- Witness for C1 at the two-page demo server. -/
theorem fetch_paginated_data_concat_witness :
    fetch_paginated_data (natServer demoPages) none 5 =
      ((List.range 2).map pageRequest,
       ((List.range 2).map (fun i => (demoPages i).content)).flatten) :=
  fetch_paginated_data_concat demoPages 2 5 (by norm_num) (by norm_num)
    (fun i hi => by
      have h0 : i = 0 := by omega
      subst h0
      rfl)
    (by rfl)

/-- Witness for C6: the demo server becomes unusable from page 1 on. -/
theorem fetch_paginated_data_partial_witness :
    fetch_paginated_data (truncServer demoPages 1) none 5 =
      ((List.range (1 + 1)).map pageRequest,
       ((List.range 1).map (fun i => (demoPages i).content)).flatten) :=
  fetch_paginated_data_partial demoPages 1 5 (by norm_num)
    (fun i hi => by
      have h0 : i = 0 := by omega
      subst h0
      rfl)

/-- Witness for C7: a page with empty content and `last = false` still
causes the next page to be requested. -/
theorem page_boundary_iff_last_witness :
    pageRequest (0 + 1) ∈
        (fetch_paginated_data (natServer (fun _ => (⟨[], false⟩ : Page))) none 2).1 ↔
      ((fun _ => (⟨[], false⟩ : Page)) 0).last = false :=
  page_boundary_iff_last (fun _ => (⟨[], false⟩ : Page)) 0 2 (by norm_num)
    (fun j hj => absurd hj (by omega))

/-!
## Reconciler (`sync_connections`, migrator.py lines 80-106)

`{db["name"].lower(): db for db in dbs}` is modelled by `buildMap`:
a left-to-right fold where a later record with the same lower-cased
name overrides an earlier one (Python dict-comprehension semantics);
the result is `none` when some record is not an object carrying a
string `name`, modelling the KeyError / TypeError / AttributeError
that aborts the Python run.
-/

/-- Keys of an association list, in insertion order. -/
def keys {α : Type} (m : List (String × α)) : List String := m.map Prod.fst

theorem alookup_assocSet_self {α : Type} (m : List (String × α)) (k : String) (v : α) :
    alookup (assocSet m k v) k = some v := by
  induction m with
  | nil => simp [assocSet, alookup]
  | cons kv rest ih =>
    obtain ⟨k1, v1⟩ := kv
    by_cases h : k1 = k <;> simp [assocSet, alookup, h, ih]

theorem alookup_assocSet_ne {α : Type} (m : List (String × α)) {k q : String} (v : α)
    (h : q ≠ k) : alookup (assocSet m k v) q = alookup m q := by
  have hkq : ¬k = q := fun hq => h hq.symm
  induction m with
  | nil => simp [assocSet, alookup, hkq]
  | cons kv rest ih =>
    obtain ⟨k1, v1⟩ := kv
    by_cases h1 : k1 = k
    · subst h1
      simp [assocSet, alookup, hkq]
    · by_cases h2 : k1 = q <;> simp [assocSet, alookup, h1, h2, h, ih]

theorem keys_assocSet {α : Type} (m : List (String × α)) (k : String) (v : α) :
    keys (assocSet m k v) = if k ∈ keys m then keys m else keys m ++ [k] := by
  induction m with
  | nil => simp [assocSet, keys]
  | cons kv rest ih =>
    obtain ⟨k1, v1⟩ := kv
    by_cases h : k1 = k
    · subst h
      simp [assocSet, keys]
    · have hne : ¬k = k1 := fun hq => h hq.symm
      simp only [assocSet, if_neg h, keys, List.map_cons] at *
      by_cases hmem : k ∈ rest.map Prod.fst
      · simp [hmem, hne, ih]
      · simp [hmem, hne, ih]

theorem keys_assocSet_nodup {α : Type} (m : List (String × α)) (k : String) (v : α)
    (h : (keys m).Nodup) : (keys (assocSet m k v)).Nodup := by
  rw [keys_assocSet]
  by_cases hmem : k ∈ keys m
  · simpa [hmem] using h
  · simp [hmem, List.nodup_append, h]

theorem alookup_mem {α : Type} {m : List (String × α)} {k : String} {v : α}
    (h : alookup m k = some v) : (k, v) ∈ m := by
  induction m with
  | nil => simp [alookup] at h
  | cons kv rest ih =>
    obtain ⟨k1, v1⟩ := kv
    by_cases h1 : k1 = k
    · subst h1
      simp [alookup] at h
      simp [h]
    · simp [alookup, h1] at h
      simp [ih h]

theorem mem_alookup {α : Type} {m : List (String × α)} (hnd : (keys m).Nodup)
    {k : String} {v : α} (hm : (k, v) ∈ m) : alookup m k = some v := by
  induction m with
  | nil => simp at hm
  | cons kv rest ih =>
    obtain ⟨k1, v1⟩ := kv
    rw [keys, List.map_cons, List.nodup_cons] at hnd
    rcases List.mem_cons.mp hm with h | h
    · have h1 : k = k1 := congrArg Prod.fst h
      have h2 : v = v1 := congrArg Prod.snd h
      subst h1
      subst h2
      simp [alookup]
    · have hk : k1 ≠ k := by
        rintro rfl
        exact hnd.1 (List.mem_map.mpr ⟨(k1, v), h, rfl⟩)
      rw [alookup, if_neg hk]
      exact ih hnd.2 h

/-- Python `str.lower()` on one character, restricted to ASCII (the
connection names this tool handles); non-ASCII case folding is outside
the model. -/
def lowerChar (c : Char) : Char :=
  if 65 ≤ c.toNat ∧ c.toNat ≤ 90 then Char.ofNat (c.toNat + 32) else c

/-- Python `str.lower()` (ASCII fragment). -/
def lowerStr (s : String) : String := ⟨s.data.map lowerChar⟩

/-- `{db["name"].lower(): db for db in dbs}`, processed left to right
into accumulator `acc`; `none` when a record is not an object with a
string `name`. -/
def buildMapAux (acc : List (String × JObj)) : List JVal → Option (List (String × JObj))
  | [] => some acc
  | db :: rest =>
    match db with
    | .obj fields =>
      match alookup fields "name" with
      | some (.str s) => buildMapAux (assocSet acc (lowerStr s) fields) rest
      | _ => none
    | _ => none

def buildMap (dbs : List JVal) : Option (List (String × JObj)) := buildMapAux [] dbs

/-- The last record of `dbs` whose lower-cased `name` is `k`
(as its object fields). -/
def lastNamed (k : String) : List JVal → Option JObj
  | [] => none
  | db :: rest =>
    match lastNamed k rest with
    | some fields => some fields
    | none =>
      match db with
      | .obj fields =>
        match alookup fields "name" with
        | some (.str s) => if lowerStr s = k then some fields else none
        | _ => none
      | _ => none

/-- The merged create payload for one common name:
`{**source_db, "password": …, "port": …, "host": …, "user": …}` with
the four secret fields read from the local record by `.get`, so a
missing local field contributes `null`. -/
def mergedPayload (source_db config_db : JObj) : JObj :=
  assocSet (assocSet (assocSet (assocSet source_db
    "password" (dgetD config_db "password" JVal.null))
    "port" (dgetD config_db "port" JVal.null))
    "host" (dgetD config_db "host" JVal.null))
    "user" (dgetD config_db "user" JVal.null)

/-- The merged payloads `sync_connections` posts, keyed by lower-cased
name.  Python iterates `source_map.keys() & config_map.keys()` in
unspecified set order; the model fixes source-map insertion order,
on which no claim depends (they are stated up to membership). -/
def sync_connections (db_payload config_databases : List JVal) :
    Option (List (String × JObj)) := do
  let smap ← buildMap db_payload
  let cmap ← buildMap config_databases
  some ((smap.filter (fun kv => (alookup cmap kv.1).isSome)).map
    (fun kv => (kv.1, mergedPayload kv.2 ((alookup cmap kv.1).getD []))))

theorem buildMapAux_nodup : ∀ (dbs : List JVal) (acc m : List (String × JObj)),
    (keys acc).Nodup → buildMapAux acc dbs = some m → (keys m).Nodup := by
  intro dbs
  induction dbs with
  | nil =>
    intro acc m hacc h
    simp [buildMapAux] at h
    exact h ▸ hacc
  | cons db rest ih =>
    intro acc m hacc h
    rcases db with _ | b | n | s | xs | fields <;> simp [buildMapAux] at h
    rcases hname : alookup fields "name" with _ | v
    · rw [hname] at h; simp at h
    · rcases v with _ | b | n | s | xs | fs <;> rw [hname] at h <;> simp at h
      exact ih _ m (keys_assocSet_nodup acc (lowerStr s) fields hacc) h

theorem buildMap_nodup (dbs : List JVal) (m : List (String × JObj))
    (h : buildMap dbs = some m) : (keys m).Nodup :=
  buildMapAux_nodup dbs [] m (by simp [keys]) h

/-- `buildMap` keeps, for each lower-cased name, exactly the last record
of the input with that name. -/
theorem buildMapAux_alookup : ∀ (dbs : List JVal) (acc m : List (String × JObj)),
    buildMapAux acc dbs = some m → ∀ k,
    alookup m k = match lastNamed k dbs with
      | some fields => some fields
      | none => alookup acc k := by
  intro dbs
  induction dbs with
  | nil =>
    intro acc m h k
    simp [buildMapAux] at h
    simp [lastNamed, h]
  | cons db rest ih =>
    intro acc m h k
    rcases db with _ | b | n | s | xs | fields <;> simp [buildMapAux] at h
    rcases hname : alookup fields "name" with _ | v
    · rw [hname] at h; simp at h
    · rcases v with _ | b | n | s | xs | fs <;> rw [hname] at h <;> simp at h
      have := ih _ m h k
      rcases hrest : lastNamed k rest with _ | fr
      · rw [hrest] at this
        by_cases hk : lowerStr s = k
        · subst hk
          simp [lastNamed, hrest, hname, alookup_assocSet_self] at *
          exact this
        · simp [lastNamed, hrest, hname, hk]
          rw [this, alookup_assocSet_ne _ _ (fun hq => hk hq.symm)]
      · rw [hrest] at this
        simp [lastNamed, hrest]
        exact this

theorem buildMap_alookup (dbs : List JVal) (m : List (String × JObj))
    (h : buildMap dbs = some m) (k : String) : alookup m k = lastNamed k dbs := by
  have := buildMapAux_alookup dbs [] m h k
  rcases hl : lastNamed k dbs with _ | fields <;> rw [hl] at this <;>
    simpa [alookup] using this

theorem mergedPayload_password (s c : JObj) :
    alookup (mergedPayload s c) "password" = some (dgetD c "password" JVal.null) := by
  unfold mergedPayload
  rw [alookup_assocSet_ne _ _ (by decide), alookup_assocSet_ne _ _ (by decide),
    alookup_assocSet_ne _ _ (by decide), alookup_assocSet_self]

theorem mergedPayload_port (s c : JObj) :
    alookup (mergedPayload s c) "port" = some (dgetD c "port" JVal.null) := by
  unfold mergedPayload
  rw [alookup_assocSet_ne _ _ (by decide), alookup_assocSet_ne _ _ (by decide),
    alookup_assocSet_self]

theorem mergedPayload_host (s c : JObj) :
    alookup (mergedPayload s c) "host" = some (dgetD c "host" JVal.null) := by
  unfold mergedPayload
  rw [alookup_assocSet_ne _ _ (by decide), alookup_assocSet_self]

theorem mergedPayload_user (s c : JObj) :
    alookup (mergedPayload s c) "user" = some (dgetD c "user" JVal.null) := by
  unfold mergedPayload
  rw [alookup_assocSet_self]

/-- The four secret fields of a merged payload come from the local
record (with `null` standing in for an absent local field). -/
theorem mergedPayload_secret (s c : JObj) (f : String)
    (hf : f ∈ ["password", "port", "host", "user"]) :
    alookup (mergedPayload s c) f = some (dgetD c f JVal.null) := by
  simp only [List.mem_cons, List.not_mem_nil, or_false] at hf
  rcases hf with rfl | rfl | rfl | rfl
  · exact mergedPayload_password s c
  · exact mergedPayload_port s c
  · exact mergedPayload_host s c
  · exact mergedPayload_user s c

/-- Every other field of a merged payload comes from the source record. -/
theorem mergedPayload_other (s c : JObj) (f : String)
    (hf : f ∉ ["password", "port", "host", "user"]) :
    alookup (mergedPayload s c) f = alookup s f := by
  simp only [List.mem_cons, List.not_mem_nil, or_false, not_or] at hf
  obtain ⟨h1, h2, h3, h4⟩ := hf
  unfold mergedPayload
  rw [alookup_assocSet_ne _ _ h4, alookup_assocSet_ne _ _ h3,
    alookup_assocSet_ne _ _ h2, alookup_assocSet_ne _ _ h1]

theorem syncConnections_eq (src cfg : List JVal) (smap cmap : List (String × JObj))
    (hs : buildMap src = some smap) (hc : buildMap cfg = some cmap) :
    sync_connections src cfg =
      some ((smap.filter (fun kv => (alookup cmap kv.1).isSome)).map
        (fun kv => (kv.1, mergedPayload kv.2 ((alookup cmap kv.1).getD [])))) := by
  simp [sync_connections, hs, hc]

/-- Membership in the reconciler output, characterized by lookups in
the two name-keyed maps. -/
theorem syncConnections_mem (src cfg : List JVal) (smap cmap : List (String × JObj))
    (hs : buildMap src = some smap) (hc : buildMap cfg = some cmap)
    (out : List (String × JObj)) (hout : sync_connections src cfg = some out)
    (k : String) (p : JObj) :
    (k, p) ∈ out ↔ ∃ s c, alookup smap k = some s ∧ alookup cmap k = some c ∧
      p = mergedPayload s c := by
  rw [syncConnections_eq src cfg smap cmap hs hc] at hout
  have hout' : out = (smap.filter (fun kv => (alookup cmap kv.1).isSome)).map
      (fun kv => (kv.1, mergedPayload kv.2 ((alookup cmap kv.1).getD []))) :=
    (Option.some.injEq .. ▸ hout).symm
  subst hout'
  constructor
  · intro hmem
    obtain ⟨kv, hkv, heq⟩ := List.mem_map.mp hmem
    obtain ⟨hkvmem, hkvpred⟩ := List.mem_filter.mp hkv
    obtain ⟨c, hc'⟩ := Option.isSome_iff_exists.mp hkvpred
    obtain ⟨k1, s⟩ := kv
    have hk : k1 = k := congrArg Prod.fst heq
    subst hk
    refine ⟨s, c, mem_alookup (buildMap_nodup src smap hs) hkvmem, hc', ?_⟩
    have hp := congrArg Prod.snd heq
    simp only at hp
    rw [← hp, hc']
    rfl
  · rintro ⟨s, c, hsk, hck, rfl⟩
    apply List.mem_map.mpr
    refine ⟨(k, s), List.mem_filter.mpr ⟨alookup_mem hsk, by simp [hck]⟩, ?_⟩
    simp [hck]

/-- C2: `sync_connections` produces merged create payloads for exactly
the lower-cased connection names present in both the source-fetched
list and the local `databases` list; each payload carries the four
secret fields from the local record and every other field from the
source record; names present in only one collection yield nothing. -/
theorem sync_connections_common_merge (src cfg : List JVal)
    (smap cmap : List (String × JObj))
    (hs : buildMap src = some smap) (hc : buildMap cfg = some cmap) :
    ∃ out, sync_connections src cfg = some out ∧
      (∀ k, (∃ p, (k, p) ∈ out) ↔
        ((alookup smap k).isSome ∧ (alookup cmap k).isSome)) ∧
      (∀ k p, (k, p) ∈ out →
        ∀ s c, alookup smap k = some s → alookup cmap k = some c →
        (∀ f, f ∈ ["password", "port", "host", "user"] →
          alookup p f = some (dgetD c f JVal.null)) ∧
        (∀ f, f ∉ ["password", "port", "host", "user"] →
          alookup p f = alookup s f)) := by
  refine ⟨_, syncConnections_eq src cfg smap cmap hs hc, ?_, ?_⟩
  · intro k
    constructor
    · rintro ⟨p, hp⟩
      obtain ⟨s, c, hsk, hck, -⟩ := (syncConnections_mem src cfg smap cmap hs hc _
        (syncConnections_eq src cfg smap cmap hs hc) k p).mp hp
      simp [hsk, hck]
    · rintro ⟨hks, hkc⟩
      obtain ⟨s, hsk⟩ := Option.isSome_iff_exists.mp hks
      obtain ⟨c, hck⟩ := Option.isSome_iff_exists.mp hkc
      exact ⟨mergedPayload s c, (syncConnections_mem src cfg smap cmap hs hc _
        (syncConnections_eq src cfg smap cmap hs hc) k _).mpr ⟨s, c, hsk, hck, rfl⟩⟩
  · intro k p hp s c hsk hck
    obtain ⟨s1, c1, hsk1, hck1, rfl⟩ := (syncConnections_mem src cfg smap cmap hs hc _
      (syncConnections_eq src cfg smap cmap hs hc) k p).mp hp
    have hseq : s1 = s := Option.some.injEq .. ▸ (hsk1.symm.trans hsk)
    have hceq : c1 = c := Option.some.injEq .. ▸ (hck1.symm.trans hck)
    subst hseq
    subst hceq
    exact ⟨fun f hf => mergedPayload_secret s1 c1 f hf,
      fun f hf => mergedPayload_other s1 c1 f hf⟩

/-- C8: a name common to both collections whose local record lacks one
of the four secret fields still yields its merged payload, with that
field present and set to `null`. -/
theorem sync_connections_missing_secret (src cfg : List JVal)
    (smap cmap : List (String × JObj))
    (hs : buildMap src = some smap) (hc : buildMap cfg = some cmap)
    (k : String) (s c : JObj)
    (hsk : alookup smap k = some s) (hck : alookup cmap k = some c)
    (f : String) (hf : f ∈ ["password", "port", "host", "user"])
    (hmiss : alookup c f = none) :
    ∃ out, sync_connections src cfg = some out ∧ (k, mergedPayload s c) ∈ out ∧
      alookup (mergedPayload s c) f = some JVal.null := by
  refine ⟨_, syncConnections_eq src cfg smap cmap hs hc,
    (syncConnections_mem src cfg smap cmap hs hc _
      (syncConnections_eq src cfg smap cmap hs hc) k _).mpr ⟨s, c, hsk, hck, rfl⟩, ?_⟩
  have := mergedPayload_secret s c f hf
  rwa [dgetD, hmiss, Option.getD_none] at this

/-- C9: when several source records (or several local records) share a
lower-cased name, only the last one in input order feeds the merge, and
the output holds at most one payload per normalized name. -/
theorem sync_connections_last_wins (src cfg : List JVal)
    (out : List (String × JObj)) (h : sync_connections src cfg = some out) :
    (keys out).Nodup ∧
    ∀ k p, (k, p) ∈ out →
      p = mergedPayload ((lastNamed k src).getD []) ((lastNamed k cfg).getD []) := by
  rcases hs : buildMap src with _ | smap
  · rw [sync_connections, hs] at h; simp at h
  rcases hc : buildMap cfg with _ | cmap
  · rw [sync_connections, hs, hc] at h; simp at h
  constructor
  · rw [syncConnections_eq src cfg smap cmap hs hc] at h
    have hout : out = (smap.filter (fun kv => (alookup cmap kv.1).isSome)).map
        (fun kv => (kv.1, mergedPayload kv.2 ((alookup cmap kv.1).getD []))) :=
      (Option.some.injEq .. ▸ h).symm
    subst hout
    have hkeys : keys ((smap.filter (fun kv => (alookup cmap kv.1).isSome)).map
        (fun kv => (kv.1, mergedPayload kv.2 ((alookup cmap kv.1).getD [])))) =
        keys (smap.filter (fun kv => (alookup cmap kv.1).isSome)) := by
      simp [keys, List.map_map, Function.comp]
    rw [hkeys]
    have hsub : (keys (smap.filter (fun kv => (alookup cmap kv.1).isSome))).Sublist
        (keys smap) := List.Sublist.map Prod.fst (List.filter_sublist smap)
    exact List.Nodup.sublist hsub (buildMap_nodup src smap hs)
  · intro k p hp
    obtain ⟨s, c, hsk, hck, rfl⟩ := (syncConnections_mem src cfg smap cmap hs hc out h
      k p).mp hp
    rw [buildMap_alookup src smap hs k] at hsk
    rw [buildMap_alookup cfg cmap hc k] at hck
    rw [hsk, hck]
    rfl

/-- Demo source listing: connections named B, C, A. -/
def srcDemo : List JVal :=
  [JVal.obj [("name", JVal.str "B"), ("engine", JVal.str "pg")],
   JVal.obj [("name", JVal.str "C")],
   JVal.obj [("name", JVal.str "A")]]

/-- Demo local `databases` list: connections named b, C, D. -/
def cfgDemo : List JVal :=
  [JVal.obj [("name", JVal.str "b"), ("password", JVal.str "pw")],
   JVal.obj [("name", JVal.str "C"), ("host", JVal.str "h")],
   JVal.obj [("name", JVal.str "D")]]

/-- `buildMap srcDemo`. -/
def smapDemo : List (String × JObj) :=
  [("b", [("name", JVal.str "B"), ("engine", JVal.str "pg")]),
   ("c", [("name", JVal.str "C")]),
   ("a", [("name", JVal.str "A")])]

/-- `buildMap cfgDemo`. -/
def cmapDemo : List (String × JObj) :=
  [("b", [("name", JVal.str "b"), ("password", JVal.str "pw")]),
   ("c", [("name", JVal.str "C"), ("host", JVal.str "h")]),
   ("d", [("name", JVal.str "D")])]

/-- Witness for C2 at source {B, C, A} versus local {b, C, D}: the
merge output covers exactly {b, c}. -/
theorem sync_connections_common_merge_witness :
    ∃ out, sync_connections srcDemo cfgDemo = some out ∧
      (∀ k, (∃ p, (k, p) ∈ out) ↔
        ((alookup smapDemo k).isSome ∧ (alookup cmapDemo k).isSome)) ∧
      (∀ k p, (k, p) ∈ out →
        ∀ s c, alookup smapDemo k = some s → alookup cmapDemo k = some c →
        (∀ f, f ∈ ["password", "port", "host", "user"] →
          alookup p f = some (dgetD c f JVal.null)) ∧
        (∀ f, f ∉ ["password", "port", "host", "user"] →
          alookup p f = alookup s f)) :=
  sync_connections_common_merge srcDemo cfgDemo smapDemo cmapDemo rfl rfl

/-- Witness for C8: local record "C" has no password, yet the payload
for "c" is produced and carries a null password. -/
theorem sync_connections_missing_secret_witness :
    ∃ out, sync_connections srcDemo cfgDemo = some out ∧
      ("c", mergedPayload [("name", JVal.str "C")]
        [("name", JVal.str "C"), ("host", JVal.str "h")]) ∈ out ∧
      alookup (mergedPayload [("name", JVal.str "C")]
        [("name", JVal.str "C"), ("host", JVal.str "h")]) "password" =
        some JVal.null :=
  sync_connections_missing_secret srcDemo cfgDemo smapDemo cmapDemo rfl rfl "c"
    [("name", JVal.str "C")] [("name", JVal.str "C"), ("host", JVal.str "h")]
    rfl rfl "password" (by simp) rfl

/-- Demo input with two source records sharing the normalized name "a". -/
def src9 : List JVal :=
  [JVal.obj [("name", JVal.str "A"), ("v", JVal.num 1)],
   JVal.obj [("name", JVal.str "a"), ("v", JVal.num 2)]]

def cfg9 : List JVal :=
  [JVal.obj [("name", JVal.str "a"), ("password", JVal.str "p")]]

/-- `sync_connections src9 cfg9`: one payload, built from the second
(last) source record. -/
def out9 : List (String × JObj) :=
  [("a", [("name", JVal.str "a"), ("v", JVal.num 2), ("password", JVal.str "p"),
    ("port", JVal.null), ("host", JVal.null), ("user", JVal.null)])]

/-- Witness for C9 at a source list with duplicate normalized names. -/
theorem sync_connections_last_wins_witness :
    (keys out9).Nodup ∧
    ∀ k p, (k, p) ∈ out9 →
      p = mergedPayload ((lastNamed k src9).getD []) ((lastNamed k cfg9).getD []) :=
  sync_connections_last_wins src9 cfg9 out9 rfl

/-!
## Migration driver (`validate_config` and `main`, migrator.py 41-54
and 188-216)

`main` is modelled as a pure function of the loaded configuration, a
network oracle and pagination fuel, returning the ordered trace of
observable events (requests sent and notices printed) together with the
outcome.  Requests are tagged with the flow that issues them (each flow
only ever touches its own resource kind's endpoints).  An uncaught
Python exception from a record access (`template["id"]`,
`audience["name"]`, the dict comprehensions of `sync_connections`)
aborts the whole run and is modelled as the `crashed` outcome, with the
trace accumulated up to that point.
-/

inductive Flow where
  | templates
  | audiences
  | databases

/-- The configuration key guarding a flow. -/
def flowKey : Flow → String
  | .templates => "templates"
  | .audiences => "audiences"
  | .databases => "databases"

inductive Request where
  | listing (flow : Flow) (params : JObj)
  | detail (id : JVal)
  | create (flow : Flow) (payload : JVal)

/-- The flow a request belongs to (detail fetches occur only in the
templates flow). -/
def Request.flow : Request → Flow
  | .listing f _ => f
  | .detail _ => .templates
  | .create f _ => f

inductive Notice where
  | requestFailed (r : Request)
  | migratingTemplate (id : JVal)
  | templateCreated
  | templateCreateFailed
  | migratingAudience (nm : JVal)
  | audienceCreated (nm : JVal)
  | audienceCreateFailed (nm : JVal)
  | fetching (flow : Flow)
  | fetchingAudiencesSource
  | connectionCreated (nm : String)
  | connectionCreateFailed (nm : String)

inductive Event where
  | req (r : Request)
  | note (n : Notice)

/-- The network oracle: decoded responses per flow and payload; `none`
models a `send_request` that returns `None` (after printing an error). -/
structure Net where
  listing : Flow → JObj → Option Page
  detail : JVal → Option JVal
  create : Flow → JVal → Option JVal

/-- The events of one `send_request` call: the request itself, then the
error notice `send_request` prints when it fails. -/
def sendEvents (r : Request) (resp : Option JVal) : List Event :=
  match resp with
  | none => [.req r, .note (.requestFailed r)]
  | some _ => [.req r]

/-- `create_template` (migrator.py 114-125): POST, then a success or
failure notice depending on the truthiness of the response. -/
def createTemplateRun (net : Net) (tdata : JVal) : List Event :=
  sendEvents (.create .templates tdata) (net.create .templates tdata) ++
    (if respTruthy (net.create .templates tdata) then [Event.note .templateCreated]
     else [Event.note .templateCreateFailed])

/-- The per-record loop of the templates flow (migrator.py 200-204):
print, detail-fetch by id, create only when the fetched detail is
truthy.  `false` marks the uncaught KeyError/TypeError of
`template["id"]`. -/
def templatesLoop (net : Net) : List JVal → List Event × Bool
  | [] => ([], true)
  | t :: rest =>
    match t.item "id" with
    | none => ([], false)
    | some id =>
      (Event.note (.migratingTemplate id) ::
        (sendEvents (.detail id) (net.detail id) ++
          (match net.detail id with
            | some v => if v.truthy then createTemplateRun net v else []
            | none => []) ++
          (templatesLoop net rest).1),
       (templatesLoop net rest).2)

/-- `create_audience` (migrator.py 132-143): POST, then a notice that
reads `audience_data["name"]` — which raises when the name is absent
(after the request was already sent). -/
def createAudienceRun (net : Net) (aud : JVal) : List Event × Bool :=
  match aud.item "name" with
  | none => (sendEvents (.create .audiences aud) (net.create .audiences aud), false)
  | some nm =>
    (sendEvents (.create .audiences aud) (net.create .audiences aud) ++
      (if respTruthy (net.create .audiences aud) then [Event.note (.audienceCreated nm)]
       else [Event.note (.audienceCreateFailed nm)]), true)

/-- The per-record loop of the audiences flow (migrator.py 209-211):
`audience["name"]` is printed before each create. -/
def audiencesLoop (net : Net) : List JVal → List Event × Bool
  | [] => ([], true)
  | a :: rest =>
    match a.item "name" with
    | none => ([], false)
    | some nm =>
      if (createAudienceRun net a).2 then
        (Event.note (.migratingAudience nm) ::
          ((createAudienceRun net a).1 ++ (audiencesLoop net rest).1),
         (audiencesLoop net rest).2)
      else (Event.note (.migratingAudience nm) :: (createAudienceRun net a).1, false)

/-- The POST loop of `sync_connections` (migrator.py 91-106): one
create per merged payload with a success/failure notice; never raises. -/
def connectionsLoop (net : Net) : List (String × JObj) → List Event
  | [] => []
  | (nm, payload) :: rest =>
    sendEvents (.create .databases (JVal.obj payload))
        (net.create .databases (JVal.obj payload)) ++
      (if respTruthy (net.create .databases (JVal.obj payload))
       then [Event.note (.connectionCreated nm)]
       else [Event.note (.connectionCreateFailed nm)]) ++
      connectionsLoop net rest

/-- Python list coercion of a JSON value for the `databases` entry;
non-array values make the comprehension in `sync_connections` raise. -/
def jAsList : JVal → Option (List JVal)
  | .arr xs => some xs
  | _ => none

/-- Templates flow (migrator.py 197-204). -/
def templatesFlowRun (net : Net) (fuel : Nat) : List Event × Bool :=
  (Event.note (.fetching .templates) ::
    ((fetch_paginated_data (net.listing .templates) none fuel).1.map
      (fun ps => Event.req (.listing .templates ps)) ++
     (templatesLoop net (fetch_paginated_data (net.listing .templates) none fuel).2).1),
   (templatesLoop net (fetch_paginated_data (net.listing .templates) none fuel).2).2)

/-- Audiences flow (migrator.py 206-211, via `fetch_audiences`). -/
def audiencesFlowRun (net : Net) (fuel : Nat) : List Event × Bool :=
  (Event.note (.fetching .audiences) :: Event.note .fetchingAudiencesSource ::
    ((fetch_paginated_data (net.listing .audiences) none fuel).1.map
      (fun ps => Event.req (.listing .audiences ps)) ++
     (audiencesLoop net (fetch_paginated_data (net.listing .audiences) none fuel).2).1),
   (audiencesLoop net (fetch_paginated_data (net.listing .audiences) none fuel).2).2)

/-- Databases flow (migrator.py 213-216 and `sync_connections`): the
name maps are built before any POST, so a comprehension failure aborts
after the listing requests but before any create. -/
def databasesFlowRun (config : JObj) (net : Net) (fuel : Nat) : List Event × Bool :=
  match jAsList (dgetD config "databases" (JVal.arr [])) with
  | none => (Event.note (.fetching .databases) ::
      (fetch_paginated_data (net.listing .databases) none fuel).1.map
        (fun ps => Event.req (.listing .databases ps)), false)
  | some cfgdbs =>
    match sync_connections (fetch_paginated_data (net.listing .databases) none fuel).2 cfgdbs with
    | none => (Event.note (.fetching .databases) ::
        (fetch_paginated_data (net.listing .databases) none fuel).1.map
          (fun ps => Event.req (.listing .databases ps)), false)
    | some merged => (Event.note (.fetching .databases) ::
        ((fetch_paginated_data (net.listing .databases) none fuel).1.map
          (fun ps => Event.req (.listing .databases ps)) ++
         connectionsLoop net merged), true)

/-- `field in config[sec]` for the validator: key membership when the
section value is an object.  Non-object section values (on which Python
`in` would behave type-dependently) are outside the model and count as
missing. -/
def jHasKey : JVal → String → Bool
  | .obj fields, k => (alookup fields k).isSome
  | _, _ => false

def requiredFields : List String := ["url", "ApiKey", "CustomerId"]

/-- The inner loop of `validate_config` for one section. -/
def checkFields (v : JVal) (sec : String) : List String → Except String Unit
  | [] => .ok ()
  | f :: rest =>
    if jHasKey v f then checkFields v sec rest
    else .error ("Missing " ++ f ++ " in " ++ sec ++ " section.")

def checkSection (config : JObj) (sec : String) : Except String Unit :=
  match alookup config sec with
  | none => .error ("Missing " ++ sec ++ " section in configuration.")
  | some v => checkFields v sec requiredFields

/-- `validate_config` (migrator.py 41-54): sections in order, fields in
order, the first failure raises. -/
def validate_config (config : JObj) : Except String Unit :=
  match checkSection config "source" with
  | .error e => .error e
  | .ok _ => checkSection config "destination"

/-- A configuration passing validation: both required sections present
with all three required fields. -/
def configComplete (config : JObj) : Bool :=
  ["source", "destination"].all fun sec =>
    match alookup config sec with
    | some v => requiredFields.all (jHasKey v)
    | none => false

/-- `config.get("migrating", {}).get(flag, False)` read as a truthy
flag; `none` when the `migrating` value is not a dict (Python would
raise on `.get`). -/
def migFlag (config : JObj) (flag : String) : Option Bool :=
  match (alookup config "migrating").getD (JVal.obj []) with
  | .obj fs => some ((alookup fs flag).getD (JVal.bool false)).truthy
  | _ => none

inductive Outcome where
  | configError (msg : String)
  | crashed
  | finished

/-- A flow guarded by its truthy flag: skipped entirely (no events,
no abort) when the flag is falsy. -/
def flowIf (b : Bool) (run : List Event × Bool) : List Event × Bool :=
  if b then run else ([], true)

/-- The three flows of `main` in order; a crash in one flow prevents
the later flows from running. -/
def flowsRun (config : JObj) (net : Net) (fuel : Nat) (tF aF dF : Bool) :
    List Event × Outcome :=
  if (flowIf tF (templatesFlowRun net fuel)).2 = false
  then ((flowIf tF (templatesFlowRun net fuel)).1, .crashed)
  else if (flowIf aF (audiencesFlowRun net fuel)).2 = false
  then ((flowIf tF (templatesFlowRun net fuel)).1 ++
        (flowIf aF (audiencesFlowRun net fuel)).1, .crashed)
  else ((flowIf tF (templatesFlowRun net fuel)).1 ++
        (flowIf aF (audiencesFlowRun net fuel)).1 ++
        (flowIf dF (databasesFlowRun config net fuel)).1,
    if (flowIf dF (databasesFlowRun config net fuel)).2 then .finished else .crashed)

/-- `main` after configuration load: validate, then run each enabled
flow in order; a validation error aborts before anything else; a
non-dict `migrating` value crashes at the first flag read. -/
def mainRun (config : JObj) (net : Net) (fuel : Nat) : List Event × Outcome :=
  match validate_config config with
  | .error e => ([], .configError e)
  | .ok _ =>
    match migFlag config "templates", migFlag config "audiences",
        migFlag config "databases" with
    | some tF, some aF, some dF => flowsRun config net fuel tF aF dF
    | _, _, _ => ([], .crashed)

/-- The payloads of the create requests in a trace, in order. -/
def createPayloads : List Event → List JVal
  | [] => []
  | .req (.create _ p) :: rest => p :: createPayloads rest
  | _ :: rest => createPayloads rest

def isCreateReq : Event → Bool
  | .req (.create _ _) => true
  | _ => false

def isDetailReq : Event → Bool
  | .req (.detail _) => true
  | _ => false

/-- Every request in the trace belongs to flow `f`. -/
def onlyFlow (f : Flow) (evs : List Event) : Prop :=
  ∀ r, Event.req r ∈ evs → r.flow = f

/-- Number of create requests in a trace. -/
def countCreates (evs : List Event) : Nat := (evs.filter isCreateReq).length

/-- Number of detail requests in a trace. -/
def countDetails (evs : List Event) : Nat := (evs.filter isDetailReq).length

/-- An all-failing network oracle. -/
def trivNet : Net := ⟨fun _ _ => none, fun _ => none, fun _ _ => none⟩

/-- A configuration whose destination section lacks `ApiKey`. -/
def badConfig : JObj :=
  [("source", JVal.obj [("url", JVal.str "su"), ("ApiKey", JVal.str "sk"),
     ("CustomerId", JVal.str "sc")]),
   ("destination", JVal.obj [("url", JVal.str "du"), ("CustomerId", JVal.str "dc")])]

theorem checkFields_ok_iff (v : JVal) (sec : String) (fs : List String) :
    checkFields v sec fs = .ok () ↔ fs.all (jHasKey v) = true := by
  induction fs with
  | nil => simp [checkFields]
  | cons f rest ih =>
    by_cases h : jHasKey v f <;> simp [checkFields, h, ih]

theorem checkSection_ok (config : JObj) (sec : String)
    (h : checkSection config sec = .ok ()) :
    ∃ v, alookup config sec = some v ∧ requiredFields.all (jHasKey v) = true := by
  unfold checkSection at h
  rcases ha : alookup config sec with _ | v <;> rw [ha] at h
  · simp at h
  · exact ⟨v, rfl, (checkFields_ok_iff v sec requiredFields).mp h⟩

theorem configComplete_of_validate_ok (config : JObj)
    (h : validate_config config = .ok ()) : configComplete config = true := by
  unfold validate_config at h
  rcases hs : checkSection config "source" with e | u <;> rw [hs] at h
  · simp at h
  · cases u
    obtain ⟨v1, hv1, hall1⟩ := checkSection_ok config "source" hs
    obtain ⟨v2, hv2, hall2⟩ := checkSection_ok config "destination" h
    simp [configComplete, hv1, hv2, hall1, hall2]

/-- C4: a configuration lacking a required section or required field
ends the run in a configuration error, with an empty event trace — in
particular before any network request is issued. -/
theorem incomplete_config_no_requests (config : JObj) (net : Net) (fuel : Nat)
    (h : configComplete config = false) :
    ∃ e, mainRun config net fuel = ([], Outcome.configError e) := by
  rcases hv : validate_config config with e | u
  · exact ⟨e, by rw [mainRun, hv]⟩
  · cases u
    rw [configComplete_of_validate_ok config hv] at h
    exact absurd h (by simp)

/-- Witness for C4: `badConfig` lacks `destination.ApiKey`. -/
theorem incomplete_config_no_requests_witness :
    ∃ e, mainRun badConfig trivNet 3 = ([], Outcome.configError e) :=
  incomplete_config_no_requests badConfig trivNet 3 rfl

theorem countCreates_append (xs ys : List Event) :
    countCreates (xs ++ ys) = countCreates xs + countCreates ys := by
  simp [countCreates, List.filter_append]

theorem countDetails_append (xs ys : List Event) :
    countDetails (xs ++ ys) = countDetails xs + countDetails ys := by
  simp [countDetails, List.filter_append]

theorem countCreates_note (n : Notice) (xs : List Event) :
    countCreates (Event.note n :: xs) = countCreates xs := by
  simp [countCreates, isCreateReq]

theorem countDetails_note (n : Notice) (xs : List Event) :
    countDetails (Event.note n :: xs) = countDetails xs := by
  simp [countDetails, isDetailReq]

theorem createTemplateRun_details (net : Net) (v : JVal) :
    countDetails (createTemplateRun net v) = 0 := by
  unfold createTemplateRun
  rcases h : net.create .templates v with _ | r <;>
    simp [sendEvents, respTruthy, h, countDetails, isDetailReq] <;>
    split <;> simp [countDetails, isDetailReq]

theorem templatesLoop_total (net : Net) (ts : List JVal)
    (hts : ∀ t ∈ ts, (t.item "id").isSome) :
    (templatesLoop net ts).2 = true ∧
      countDetails (templatesLoop net ts).1 = ts.length := by
  induction ts with
  | nil => simp [templatesLoop, countDetails]
  | cons t rest ih =>
    obtain ⟨id, hid⟩ := Option.isSome_iff_exists.mp (hts t (by simp))
    have ih1 := ih (fun x hx => hts x (by simp [hx]))
    unfold templatesLoop
    rw [hid]
    dsimp only
    refine ⟨ih1.1, ?_⟩
    rw [countDetails_note, countDetails_append, countDetails_append, ih1.2]
    have hcr : countDetails (match net.detail id with
        | some v => if v.truthy then createTemplateRun net v else []
        | none => []) = 0 := by
      rcases hd : net.detail id with _ | v
      · simp [countDetails]
      · show countDetails (if v.truthy then createTemplateRun net v else []) = 0
        by_cases ht : v.truthy
        · simp only [ht, if_true]
          exact createTemplateRun_details net v
        · simp [ht, countDetails]
    have hsend : countDetails (sendEvents (.detail id) (net.detail id)) = 1 := by
      rcases hd : net.detail id with _ | v <;>
        simp [sendEvents, countDetails, isDetailReq]
    rw [hcr, hsend]
    simp [List.length_cons]
    omega

theorem createAudienceRun_ok (net : Net) (a : JVal) (nm : JVal)
    (h : a.item "name" = some nm) : (createAudienceRun net a).2 = true := by
  unfold createAudienceRun
  rw [h]

theorem createAudienceRun_creates (net : Net) (a : JVal) :
    countCreates (createAudienceRun net a).1 = 1 := by
  unfold createAudienceRun
  rcases a.item "name" with _ | nm <;>
    rcases h : net.create .audiences a with _ | r <;>
    simp [sendEvents, respTruthy, h, countCreates, isCreateReq] <;>
    split <;> simp [countCreates, isCreateReq]

theorem audiencesLoop_total (net : Net) (as : List JVal)
    (has : ∀ a ∈ as, (a.item "name").isSome) :
    (audiencesLoop net as).2 = true ∧
      countCreates (audiencesLoop net as).1 = as.length := by
  induction as with
  | nil => simp [audiencesLoop, countCreates]
  | cons a rest ih =>
    obtain ⟨nm, hnm⟩ := Option.isSome_iff_exists.mp (has a (by simp))
    have ih1 := ih (fun x hx => has x (by simp [hx]))
    unfold audiencesLoop
    rw [hnm]
    dsimp only
    rw [if_pos (createAudienceRun_ok net a nm hnm)]
    refine ⟨ih1.1, ?_⟩
    rw [countCreates_note, countCreates_append, createAudienceRun_creates, ih1.2]
    simp [List.length_cons]
    omega

theorem connectionsLoop_total (net : Net) (ms : List (String × JObj)) :
    countCreates (connectionsLoop net ms) = ms.length := by
  induction ms with
  | nil => simp [connectionsLoop, countCreates]
  | cons m rest ih =>
    obtain ⟨nm, payload⟩ := m
    unfold connectionsLoop
    rw [countCreates_append, countCreates_append, ih]
    have h1 : countCreates (sendEvents (.create .databases (JVal.obj payload))
        (net.create .databases (JVal.obj payload))) = 1 := by
      rcases h : net.create .databases (JVal.obj payload) with _ | r <;>
        simp [sendEvents, countCreates, isCreateReq]
    have h2 : countCreates (if respTruthy (net.create .databases (JVal.obj payload))
        then [Event.note (.connectionCreated nm)]
        else [Event.note (.connectionCreateFailed nm)]) = 0 := by
      split <;> simp [countCreates, isCreateReq]
    rw [h1, h2]
    simp [List.length_cons]
    omega

/-- C5: per-record failures are isolated: whatever the network oracle
does (including failing every request), each flow loop completes
normally and processes every record — one detail request per listed
template, one create request per listed audience, one create request
per merged connection payload. -/
theorem per_record_failure_isolated (net : Net) (ts as : List JVal)
    (ms : List (String × JObj))
    (hts : ∀ t ∈ ts, (t.item "id").isSome)
    (has : ∀ a ∈ as, (a.item "name").isSome) :
    (templatesLoop net ts).2 = true ∧
    countDetails (templatesLoop net ts).1 = ts.length ∧
    (audiencesLoop net as).2 = true ∧
    countCreates (audiencesLoop net as).1 = as.length ∧
    countCreates (connectionsLoop net ms) = ms.length :=
  ⟨(templatesLoop_total net ts hts).1, (templatesLoop_total net ts hts).2,
   (audiencesLoop_total net as has).1, (audiencesLoop_total net as has).2,
   connectionsLoop_total net ms⟩

/-- Witness for C5: one template, one audience, one merged connection,
against the all-failing oracle. -/
theorem per_record_failure_isolated_witness :
    (templatesLoop trivNet [JVal.obj [("id", JVal.num 1)]]).2 = true ∧
    countDetails (templatesLoop trivNet [JVal.obj [("id", JVal.num 1)]]).1 = 1 ∧
    (audiencesLoop trivNet [JVal.obj [("name", JVal.str "x")]]).2 = true ∧
    countCreates (audiencesLoop trivNet [JVal.obj [("name", JVal.str "x")]]).1 = 1 ∧
    countCreates (connectionsLoop trivNet [("a", [("name", JVal.str "a")])]) = 1 := by
  have h := per_record_failure_isolated trivNet [JVal.obj [("id", JVal.num 1)]]
    [JVal.obj [("name", JVal.str "x")]] [("a", [("name", JVal.str "a")])]
    (by intro t ht; rw [List.mem_singleton] at ht; subst ht; rfl)
    (by intro a ha; rw [List.mem_singleton] at ha; subst ha; rfl)
  simpa using h

theorem createPayloads_append (xs ys : List Event) :
    createPayloads (xs ++ ys) = createPayloads xs ++ createPayloads ys := by
  induction xs with
  | nil => rfl
  | cons e rest ih =>
    rcases e with r | n
    · rcases r with ⟨f, ps⟩ | ⟨id⟩ | ⟨f, p⟩ <;> simp [createPayloads, ih]
    · simp [createPayloads, ih]

theorem createPayloads_note (n : Notice) (xs : List Event) :
    createPayloads (Event.note n :: xs) = createPayloads xs := by
  simp [createPayloads]

theorem createPayloads_sendEvents_detail (id : JVal) (resp : Option JVal) :
    createPayloads (sendEvents (.detail id) resp) = [] := by
  rcases resp with _ | v <;> simp [sendEvents, createPayloads]

theorem createPayloads_createTemplateRun (net : Net) (v : JVal) :
    createPayloads (createTemplateRun net v) = [v] := by
  unfold createTemplateRun
  rw [createPayloads_append]
  have h1 : createPayloads (sendEvents (.create .templates v)
      (net.create .templates v)) = [v] := by
    rcases h : net.create .templates v with _ | r <;>
      simp [sendEvents, createPayloads]
  have h2 : createPayloads (if respTruthy (net.create .templates v)
      then [Event.note Notice.templateCreated]
      else [Event.note Notice.templateCreateFailed]) = [] := by
    split <;> simp [createPayloads]
  rw [h1, h2]
  rfl

theorem createPayloads_listing_map (f : Flow) (l : List JObj) :
    createPayloads (l.map (fun ps => Event.req (.listing f ps))) = [] := by
  induction l with
  | nil => rfl
  | cons x rest ih => simp [createPayloads, ih]

/-- The per-record loop of the templates flow issues one create per
record with a (truthy) detail response, in listing order, and emits a
failure notice for each record whose detail fetch fails. -/
theorem templatesLoop_spec (net : Net) (ts : List JVal)
    (hts : ∀ t ∈ ts, (t.item "id").isSome)
    (husable : ∀ id v, net.detail id = some v → v.truthy = true) :
    createPayloads (templatesLoop net ts).1 =
      ts.filterMap (fun t => (t.item "id").bind net.detail) ∧
    ∀ t ∈ ts, ∀ id, t.item "id" = some id → net.detail id = none →
      Event.note (Notice.requestFailed (Request.detail id)) ∈
        (templatesLoop net ts).1 := by
  induction ts with
  | nil => exact ⟨rfl, by simp⟩
  | cons t rest ih =>
    obtain ⟨id, hid⟩ := Option.isSome_iff_exists.mp (hts t (by simp))
    have ih1 := ih (fun x hx => hts x (by simp [hx]))
    unfold templatesLoop
    rw [hid]
    dsimp only
    constructor
    · rw [createPayloads_note, createPayloads_append, createPayloads_append,
        createPayloads_sendEvents_detail, ih1.1]
      rcases hd : net.detail id with _ | v
      · simp [List.filterMap_cons, hid, hd, createPayloads]
      · have ht := husable id v hd
        simp [List.filterMap_cons, hid, hd, ht, createPayloads_createTemplateRun]
    · intro x hx id0 hid0 hd0
      rcases List.mem_cons.mp hx with rfl | hxr
      · rw [hid] at hid0
        have hii := Option.some.inj hid0
        subst hii
        apply List.mem_cons_of_mem
        apply List.mem_append_left
        apply List.mem_append_left
        simp [sendEvents, hd0]
      · exact List.mem_cons_of_mem _
          (List.mem_append_right _ (ih1.2 x hxr id0 hid0 hd0))

/-- C3: in the templates flow, a create request is issued exactly for
the records whose detail fetch returns a usable result, in listing
order; a record whose detail fetch fails yields no create but a
failure notice, and the loop continues with the remaining records. -/
theorem templates_flow_detail_gates_create (net : Net) (fuel : Nat)
    (hts : ∀ t ∈ (fetch_paginated_data (net.listing .templates) none fuel).2,
      (t.item "id").isSome)
    (husable : ∀ id v, net.detail id = some v → v.truthy = true) :
    (templatesFlowRun net fuel).2 = true ∧
    createPayloads (templatesFlowRun net fuel).1 =
      (fetch_paginated_data (net.listing .templates) none fuel).2.filterMap
        (fun t => (t.item "id").bind net.detail) ∧
    ∀ t ∈ (fetch_paginated_data (net.listing .templates) none fuel).2, ∀ id,
      t.item "id" = some id → net.detail id = none →
      Event.note (Notice.requestFailed (Request.detail id)) ∈
        (templatesFlowRun net fuel).1 := by
  have hspec := templatesLoop_spec net _ hts husable
  have htot := templatesLoop_total net _ hts
  unfold templatesFlowRun
  refine ⟨htot.1, ?_, ?_⟩
  · rw [createPayloads_note, createPayloads_append, createPayloads_listing_map,
      hspec.1]
    rfl
  · intro t ht id hid hd
    exact List.mem_cons_of_mem _
      (List.mem_append_right _ (hspec.2 t ht id hid hd))

/-- Listing of three template ids. -/
def tsDemo : List JVal :=
  [JVal.obj [("id", JVal.num 1)], JVal.obj [("id", JVal.num 2)],
   JVal.obj [("id", JVal.num 3)]]

/-- Detail oracle that succeeds for ids 1 and 3 and fails for id 2. -/
def detailDemo : JVal → Option JVal
  | .num 1 => some (JVal.obj [("id", JVal.num 1), ("content", JVal.str "t1")])
  | .num 3 => some (JVal.obj [("id", JVal.num 3), ("content", JVal.str "t3")])
  | _ => none

/-- One listing page with the three demo templates; detail via
`detailDemo`; every create fails. -/
def netDemo3 : Net :=
  ⟨fun _ => natServer (fun _ => ⟨tsDemo, true⟩), detailDemo, fun _ _ => none⟩

/-- Witness for C3: three listed ids, detail fetch failing for id 2,
yield exactly the creates for ids 1 and 3 plus a failure notice. -/
theorem templates_flow_detail_gates_create_witness :
    (templatesFlowRun netDemo3 2).2 = true ∧
    createPayloads (templatesFlowRun netDemo3 2).1 =
      (fetch_paginated_data (netDemo3.listing .templates) none 2).2.filterMap
        (fun t => (t.item "id").bind netDemo3.detail) ∧
    ∀ t ∈ (fetch_paginated_data (netDemo3.listing .templates) none 2).2, ∀ id,
      t.item "id" = some id → netDemo3.detail id = none →
      Event.note (Notice.requestFailed (Request.detail id)) ∈
        (templatesFlowRun netDemo3 2).1 :=
  templates_flow_detail_gates_create netDemo3 2
    (by
      intro t ht
      have ht2 : t ∈ tsDemo := ht
      simp only [tsDemo, List.mem_cons, List.not_mem_nil, or_false] at ht2
      rcases ht2 with rfl | rfl | rfl <;> rfl)
    (by
      intro id v h
      have h2 : detailDemo id = some v := h
      unfold detailDemo at h2
      split at h2
      · injection h2 with h3
        subst h3
        rfl
      · injection h2 with h3
        subst h3
        rfl
      · exact absurd h2 (by simp))

theorem onlyFlow_nil (f : Flow) : onlyFlow f [] :=
  fun _ hr => absurd hr (List.not_mem_nil _)

theorem onlyFlow_append {f : Flow} {xs ys : List Event}
    (hx : onlyFlow f xs) (hy : onlyFlow f ys) : onlyFlow f (xs ++ ys) :=
  fun r hr => (List.mem_append.mp hr).elim (hx r) (hy r)

theorem onlyFlow_cons_note {f : Flow} {n : Notice} {xs : List Event}
    (hx : onlyFlow f xs) : onlyFlow f (Event.note n :: xs) := by
  intro r hr
  rcases List.mem_cons.mp hr with h | h
  · exact absurd h (by simp)
  · exact hx r h

theorem sendEvents_onlyFlow {f : Flow} (r : Request) (resp : Option JVal)
    (hr : r.flow = f) : onlyFlow f (sendEvents r resp) := by
  intro r1 h1
  rcases resp with _ | v
  · simp [sendEvents] at h1
    subst h1
    exact hr
  · simp [sendEvents] at h1
    subst h1
    exact hr

theorem onlyFlow_if_notes {f : Flow} {c : Prop} [Decidable c] {n1 n2 : Notice} :
    onlyFlow f (if c then [Event.note n1] else [Event.note n2]) := by
  split <;> intro r hr <;> simp at hr

theorem createTemplateRun_onlyFlow (net : Net) (v : JVal) :
    onlyFlow .templates (createTemplateRun net v) := by
  unfold createTemplateRun
  exact onlyFlow_append (sendEvents_onlyFlow _ _ rfl) onlyFlow_if_notes

theorem templatesLoop_onlyFlow (net : Net) (ts : List JVal) :
    onlyFlow .templates (templatesLoop net ts).1 := by
  induction ts with
  | nil => exact onlyFlow_nil _
  | cons t rest ih =>
    unfold templatesLoop
    rcases t.item "id" with _ | id
    · exact onlyFlow_nil _
    · refine onlyFlow_cons_note (onlyFlow_append (onlyFlow_append
        (sendEvents_onlyFlow _ _ rfl) ?_) ih)
      rcases net.detail id with _ | v
      · exact onlyFlow_nil _
      · show onlyFlow Flow.templates (if v.truthy then createTemplateRun net v else [])
        split
        · exact createTemplateRun_onlyFlow net v
        · exact onlyFlow_nil _

theorem createAudienceRun_onlyFlow (net : Net) (a : JVal) :
    onlyFlow .audiences (createAudienceRun net a).1 := by
  unfold createAudienceRun
  rcases a.item "name" with _ | nm
  · exact sendEvents_onlyFlow _ _ rfl
  · exact onlyFlow_append (sendEvents_onlyFlow _ _ rfl) onlyFlow_if_notes

theorem audiencesLoop_onlyFlow (net : Net) (as : List JVal) :
    onlyFlow .audiences (audiencesLoop net as).1 := by
  induction as with
  | nil => exact onlyFlow_nil _
  | cons a rest ih =>
    unfold audiencesLoop
    rcases a.item "name" with _ | nm
    · exact onlyFlow_nil _
    · dsimp only
      split
      · exact onlyFlow_cons_note
          (onlyFlow_append (createAudienceRun_onlyFlow net a) ih)
      · exact onlyFlow_cons_note (createAudienceRun_onlyFlow net a)

theorem connectionsLoop_onlyFlow (net : Net) (ms : List (String × JObj)) :
    onlyFlow .databases (connectionsLoop net ms) := by
  induction ms with
  | nil => exact onlyFlow_nil _
  | cons m rest ih =>
    obtain ⟨nm, payload⟩ := m
    unfold connectionsLoop
    exact onlyFlow_append (onlyFlow_append (sendEvents_onlyFlow _ _ rfl)
      onlyFlow_if_notes) ih

theorem listingMap_onlyFlow (f : Flow) (l : List JObj) :
    onlyFlow f (l.map (fun ps => Event.req (.listing f ps))) := by
  intro r hr
  obtain ⟨ps, hps, heq⟩ := List.mem_map.mp hr
  cases heq
  rfl

theorem templatesFlowRun_onlyFlow (net : Net) (fuel : Nat) :
    onlyFlow .templates (templatesFlowRun net fuel).1 := by
  unfold templatesFlowRun
  exact onlyFlow_cons_note (onlyFlow_append (listingMap_onlyFlow _ _)
    (templatesLoop_onlyFlow net _))

theorem audiencesFlowRun_onlyFlow (net : Net) (fuel : Nat) :
    onlyFlow .audiences (audiencesFlowRun net fuel).1 := by
  unfold audiencesFlowRun
  exact onlyFlow_cons_note (onlyFlow_cons_note (onlyFlow_append
    (listingMap_onlyFlow _ _) (audiencesLoop_onlyFlow net _)))

theorem databasesFlowRun_onlyFlow (config : JObj) (net : Net) (fuel : Nat) :
    onlyFlow .databases (databasesFlowRun config net fuel).1 := by
  unfold databasesFlowRun
  rcases jAsList (dgetD config "databases" (JVal.arr [])) with _ | cfgdbs
  · exact onlyFlow_cons_note (listingMap_onlyFlow _ _)
  · dsimp only
    rcases sync_connections
        (fetch_paginated_data (net.listing .databases) none fuel).2 cfgdbs with _ | merged
    · exact onlyFlow_cons_note (listingMap_onlyFlow _ _)
    · exact onlyFlow_cons_note (onlyFlow_append (listingMap_onlyFlow _ _)
        (connectionsLoop_onlyFlow net merged))

theorem mem_flowIf {b : Bool} {run : List Event × Bool} {e : Event}
    (h : e ∈ (flowIf b run).1) : b = true ∧ e ∈ run.1 := by
  cases b
  · simp [flowIf] at h
  · exact ⟨rfl, by simpa [flowIf] using h⟩

theorem flowsRun_trace_sub (config : JObj) (net : Net) (fuel : Nat)
    (tF aF dF : Bool) (e : Event)
    (h : e ∈ (flowsRun config net fuel tF aF dF).1) :
    e ∈ (flowIf tF (templatesFlowRun net fuel)).1 ∨
    e ∈ (flowIf aF (audiencesFlowRun net fuel)).1 ∨
    e ∈ (flowIf dF (databasesFlowRun config net fuel)).1 := by
  unfold flowsRun at h
  split at h
  · exact Or.inl h
  · split at h
    · rcases List.mem_append.mp h with h | h
      · exact Or.inl h
      · exact Or.inr (Or.inl h)
    · rcases List.mem_append.mp h with h | h
      · rcases List.mem_append.mp h with h | h
        · exact Or.inl h
        · exact Or.inr (Or.inl h)
      · exact Or.inr (Or.inr h)

theorem mainRun_no_migrating (config : JObj) (net : Net) (fuel : Nat)
    (hmig : alookup config "migrating" = none)
    (hv : validate_config config = .ok ()) :
    mainRun config net fuel = ([], Outcome.finished) := by
  have hf : ∀ fl, migFlag config fl = some false := by
    intro fl
    simp [migFlag, hmig, alookup, JVal.truthy]
  unfold mainRun
  rw [hv, hf "templates", hf "audiences", hf "databases"]
  simp [flowsRun, flowIf]

theorem mainRun_flagged (config : JObj) (net : Net) (fuel : Nat) (r : Request)
    (hmem : Event.req r ∈ (mainRun config net fuel).1) :
    migFlag config (flowKey r.flow) = some true := by
  unfold mainRun at hmem
  rcases hv : validate_config config with e | u <;> rw [hv] at hmem
  · exact absurd hmem (List.not_mem_nil _)
  · cases u
    rcases ht : migFlag config "templates" with _ | tF <;> rw [ht] at hmem
    · exact absurd hmem (List.not_mem_nil _)
    rcases ha : migFlag config "audiences" with _ | aF <;> rw [ha] at hmem
    · exact absurd hmem (List.not_mem_nil _)
    rcases hd : migFlag config "databases" with _ | dF <;> rw [hd] at hmem
    · exact absurd hmem (List.not_mem_nil _)
    rcases flowsRun_trace_sub config net fuel tF aF dF (Event.req r) hmem
      with h | h | h
    · obtain ⟨hb, h⟩ := mem_flowIf h
      have hfl := templatesFlowRun_onlyFlow net fuel r h
      rw [hfl]
      show migFlag config "templates" = some true
      rw [ht, hb]
    · obtain ⟨hb, h⟩ := mem_flowIf h
      have hfl := audiencesFlowRun_onlyFlow net fuel r h
      rw [hfl]
      show migFlag config "audiences" = some true
      rw [ha, hb]
    · obtain ⟨hb, h⟩ := mem_flowIf h
      have hfl := databasesFlowRun_onlyFlow config net fuel r h
      rw [hfl]
      show migFlag config "databases" = some true
      rw [hd, hb]

/-- C10: the `migrating` flags gate the flows: with no `migrating`
section a valid run finishes with no events (hence no requests) at all,
and in general every request in the trace belongs to a flow whose flag
is present and truthy. -/
theorem flows_gated (config : JObj) (net : Net) (fuel : Nat) :
    (alookup config "migrating" = none → validate_config config = .ok () →
      mainRun config net fuel = ([], Outcome.finished)) ∧
    ∀ r, Event.req r ∈ (mainRun config net fuel).1 →
      migFlag config (flowKey r.flow) = some true :=
  ⟨fun hmig hv => mainRun_no_migrating config net fuel hmig hv,
   fun r hmem => mainRun_flagged config net fuel r hmem⟩

/-- A complete configuration with no `migrating` section. -/
def goodConfig : JObj :=
  [("source", JVal.obj [("url", JVal.str "su"), ("ApiKey", JVal.str "sk"),
     ("CustomerId", JVal.str "sc")]),
   ("destination", JVal.obj [("url", JVal.str "du"), ("ApiKey", JVal.str "dk"),
     ("CustomerId", JVal.str "dc")])]

/-- Witness for C10 at a flag-less configuration and the all-failing
oracle. -/
theorem flows_gated_witness :
    (alookup goodConfig "migrating" = none →
      validate_config goodConfig = .ok () →
      mainRun goodConfig trivNet 2 = ([], Outcome.finished)) ∧
    ∀ r, Event.req r ∈ (mainRun goodConfig trivNet 2).1 →
      migFlag goodConfig (flowKey r.flow) = some true :=
  flows_gated goodConfig trivNet 2

end Migrator
